import Mathlib

/-
Verification development for the adrtfcodesynth repository.

The repository is a LangGraph workflow that turns two Terraform snapshots
(and optional per-stage source archives) into Architecture Decision Records.
This file gives a shallow embedding, in Lean 4, of the deterministic parts of
the code that the specification claims talk about:

  * src/config.py            : provider factory and project-config loading
  * src/state.py             : the workflow state fields and their writers
  * src/workflow.py          : the task graph and its superstep scheduling
  * src/nodes/*.py           : the LangGraph node functions
  * src/agents/adr_generator.py       : the ADR record and its rendering
  * src/agents/source_code_extractor.py : archive classification/extraction

LLM calls, file reads and archive decoding are external collaborators; they
enter the embedding as explicit oracle parameters (functions quantified over
in theorems) or as explicit input data, never as hidden state.  Machine
floats never reach a claim, so numeric knobs use Nat/Rat.

Python string utilities used by the code (pathlib component parsing,
lowercasing, newline splitting, lexicographic sorting) are embedded as
structurally recursive functions over character lists so that every
definition evaluates inside the kernel.
-/

set_option maxRecDepth 16384

namespace AdrSynth

/-! ### Character and string helpers

Embeddings of the Python string primitives the sources rely on.  They are
defined over `List Char` so that concrete instances reduce with `decide`. -/

/-- Embedding of `str.lower()` for the provider names of config.py. -/
def lowerStr (s : String) : String :=
  String.mk (s.toList.map Char.toLower)

/-- Split a character list at every occurrence of `sep`.  This is the
splitting primitive used to embed both `pathlib` component parsing (on the
path separator) and line decomposition of rendered Markdown (on the newline
character).  Always returns a nonempty list of chunks. -/
def splitChar (sep : Char) : List Char → List (List Char)
  | [] => [[]]
  | c :: rest =>
    let r := splitChar sep rest
    if c = sep then [] :: r
    else
      match r with
      | [] => [[c]]
      | h :: t => (c :: h) :: t

/-- Join chunks with a separator character: inverse of `splitChar` on
separator-free chunks. -/
def joinChar (sep : Char) : List (List Char) → List Char
  | [] => []
  | [p] => p
  | p :: rest => p ++ sep :: joinChar sep rest

/-- The lines of a string, splitting on the newline character. -/
def linesOf (s : String) : List String :=
  (splitChar (Char.ofNat 10) s.toList).map String.mk

/-! ### Path helpers

Embedding of the fragment of `pathlib.PurePath` the sources use on the
relative paths found in zip archives and project directories:
`Path(p).name`, `Path(p).suffix` and `str(Path(p))`.  `pathlib` drops empty
components and `.` components when parsing a relative path. -/

/-- The parsed components of a relative POSIX path, as `pathlib` keeps them:
split on the separator, dropping empty and single-dot components. -/
def pathParts (p : String) : List (List Char) :=
  (splitChar '/' p.toList).filter (fun c => !(c = [] || c = ['.']))

/-- Embedding of `str(Path(p))` for relative paths: the kept components
joined by the separator, or `.` when nothing remains. -/
def pathStr (p : String) : String :=
  match pathParts p with
  | [] => "."
  | parts => String.mk (joinChar '/' parts)

/-- Embedding of `Path(p).name`: the final component, or empty. -/
def pathNameChars (p : String) : List Char :=
  (pathParts p).getLast? |>.getD []

/-- Embedding of `Path(p).name` as a string. -/
def pathName (p : String) : String :=
  String.mk (pathNameChars p)

/-- Embedding of `Path(p).suffix`: the extension of the final component.
`pathlib` takes the part of the name from its last dot on, provided that
dot is neither the first nor the last character of the name. -/
def pathSuffix (p : String) : String :=
  let n := pathNameChars p
  match n.reverse.findIdx? (fun c => c = '.') with
  | none => ""
  | some r =>
    let i := n.length - 1 - r
    if 0 < i ∧ i < n.length - 1 then String.mk (n.drop i) else ""

/-! ### Embedding of src/config.py -/

/-- The chat-model handle returned by the factory; the three constructors
stand for the three LangChain client classes `create_llm` can build. -/
inductive LLMHandle where
  | chatOpenAI
  | chatGroq
  | chatGoogleGenerativeAI
deriving DecidableEq, Repr

/-- The Python exceptions the embedded code can raise. -/
inductive PyErr where
  | valueError (msg : String)
  | typeError (msg : String)
  | attributeError (msg : String)
deriving DecidableEq, Repr

/-- The closed provider set of `LLMProviderType` (config.py). -/
def supported_providers : List String := ["openai", "groq", "gemini"]

/-- Embedding of `LLMFactory.create_llm` (config.py).  The factory lowercases
the provider name, then dispatches on the three supported values, raising
`ValueError` otherwise.  The provider-specific constructor bodies only
forward keyword parameters to the LangChain clients (external collaborators),
so the handle value is all that is modelled. -/
def create_llm (provider : String) : Except PyErr LLMHandle :=
  let p := lowerStr provider
  if p = "openai" then .ok .chatOpenAI
  else if p = "groq" then .ok .chatGroq
  else if p = "gemini" then .ok .chatGoogleGenerativeAI
  else .error (.valueError ("Unsupported LLM provider: " ++ p))

/-- The `context_generation` block of a project configuration. -/
structure ContextGenerationConfig where
  max_files : Nat
  max_file_size : Nat
deriving DecidableEq, Repr

/-- The `llm` block of a project configuration. -/
structure LLMSection where
  provider : String
  model : String
  temperature : Rat
  max_tokens : Option Nat
deriving DecidableEq, Repr

/-- The `analysis` block of the default project configuration. -/
structure AnalysisSection where
  use_spanish_knowledge_base : Bool
  knowledge_base_language : String
deriving DecidableEq, Repr

/-- A project configuration record, with the keys `load_project_config`
returns (config.py). -/
structure ProjectConfig where
  project_name : String
  terraform_minor : String
  terraform_major : String
  source_code_zip : String
  knowledge_base : String
  llm : LLMSection
  context_generation : ContextGenerationConfig
  analysis : AnalysisSection
deriving DecidableEq, Repr

/-- The default configuration synthesized by `load_project_config` when no
`project-config.yaml` exists, verbatim from config.py; its only input is the
final component of the project directory path (`Path(project_dir).name`). -/
def default_project_config (dirName : String) : ProjectConfig where
  project_name := dirName
  terraform_minor := "cloud_evolucion_menor.tf"
  terraform_major := "cloud_evolucion_mayor.tf"
  source_code_zip := "app.zip"
  knowledge_base := "knowledge/IAC.txt"
  llm := { provider := "openai", model := "gpt-4o", temperature := 3 / 10, max_tokens := some 2000 }
  context_generation := { max_files := 10, max_file_size := 5000 }
  analysis := { use_spanish_knowledge_base := false, knowledge_base_language := "en" }

/-- Embedding of `load_project_config` (config.py).  `configFile` is the
parsed content of `project_dir/project-config.yaml` when that file exists
(file reading and YAML parsing are external).  The second component of the
result is the module-global `_project_config` after the call, threaded
explicitly: the existing-file branch stores the loaded config there, while
the missing-file branch returns the default without touching it. -/
def load_project_config (project_dir : String) (configFile : Option ProjectConfig)
    (projectConfigGlobal : Option ProjectConfig) :
    ProjectConfig × Option ProjectConfig :=
  match configFile with
  | none => (default_project_config (pathName project_dir), projectConfigGlobal)
  | some cfg => (cfg, some cfg)

/-! ### Embedding of src/agents/adr_generator.py

`ADR` mirrors the Pydantic model field for field.  Every field is an
unconstrained string (or list of strings): the Pydantic declaration
`status: str = Field(description=...)` documents the five intended status
values in prose only and installs no validator, so the embedding must not
constrain it either. -/

structure ADR where
  adr_name : String
  title : String
  status : String
  motivation : String
  decision_drivers : List String
  main_decision : String
  alternatives : List String
  pros : String
  cons : String
  consequences : String
  validation : String
  additional_information : String
deriving DecidableEq, Repr

/-- The five status values named by the ADR docstrings and the prompt
(adr_generator.py): the enumeration is requested from the model, not
enforced by code. -/
def allowed_statuses : List String :=
  ["Proposed", "Accepted", "Rejected", "Deprecated", "Superseded"]

/-- The eleven fixed section headings of `ADR.to_markdown`, in their fixed
order. -/
def fixed_section_headings : List String :=
  ["## Title", "## Status", "## Motivation", "## Decision Drivers",
   "## Main Decision", "## Alternatives", "## Pros", "## Cons",
   "## Consequences", "## Validation", "## Additional Information"]

/-- The `lines` list built by `ADR.to_markdown` before joining, verbatim
from adr_generator.py. -/
def ADR.to_markdown_lines (a : ADR) : List String :=
  ["# ADR: " ++ a.adr_name, "",
   "## Title", a.title, "",
   "## Status", a.status, "",
   "## Motivation", a.motivation, "",
   "## Decision Drivers"]
  ++ a.decision_drivers.map (fun driver => "- " ++ driver)
  ++ ["",
      "## Main Decision", a.main_decision, "",
      "## Alternatives"]
  ++ a.alternatives.map (fun alt => "- " ++ alt)
  ++ ["",
      "## Pros", a.pros, "",
      "## Cons", a.cons, "",
      "## Consequences", a.consequences, "",
      "## Validation", a.validation, "",
      "## Additional Information", a.additional_information]

/-- Embedding of `ADR.to_markdown`: the lines joined with newlines. -/
def ADR.to_markdown (a : ADR) : String :=
  String.intercalate "\n" a.to_markdown_lines

/-- The lines of the rendered document, as a reader of the emitted Markdown
sees them (fields containing embedded newlines contribute several lines). -/
def ADR.doc_lines (a : ADR) : List String :=
  linesOf a.to_markdown

/-- Embedding of the deterministic tail of `ADRGenerator.generate`
(adr_generator.py): `adrs` is the record list of the structured LLM
response (`ADRList.adrs`, an external input); the code enumerates it from 1
and renders every record, with no truncation or validation. -/
def ADRGenerator.generate (project_name : String) (adrs : List ADR) :
    List (String × String) :=
  (List.enumFrom 1 adrs).map
    (fun p => (project_name ++ "_ADR_" ++ toString p.1 ++ ".md", p.2.to_markdown))

/-- Does a document line equal one of the eleven fixed section headings? -/
def is_fixed_heading (l : String) : Bool := fixed_section_headings.contains l

/-- The heading lines of a rendered document. -/
def heading_lines (doc : List String) : List String := doc.filter is_fixed_heading

/-- A text is heading-free when none of its lines equals a fixed heading. -/
def clean_str (s : String) : Bool := (linesOf s).all (fun l => !is_fixed_heading l)

/-- The variable texts spliced into a rendered ADR document: the name line,
the eight free-text sections and the bullet items of the two list sections. -/
def ADR.spliced_texts (a : ADR) : List String :=
  ["# ADR: " ++ a.adr_name, a.title, a.status, a.motivation, a.main_decision,
   a.pros, a.cons, a.consequences, a.validation, a.additional_information]
  ++ a.decision_drivers.map (fun driver => "- " ++ driver)
  ++ a.alternatives.map (fun alt => "- " ++ alt)

/-! ### Embedding of src/agents/source_code_extractor.py

A zip archive enters the embedding as its entry list (`infolist()`/
`namelist()`) together with a read function; `zipfile.is_dir()` is carried
as a flag on the entry.  Decoding is `errors=ignore`, hence total; a read
failure is `none` and is skipped by the `try/except` around each file. -/

/-- One archive entry: its raw name and whether it is a directory entry. -/
structure ZipEntry where
  filename : String
  is_dir : Bool
deriving DecidableEq, Repr

/-- The categories `extract_project_structure` sorts file entries into
(directories are kept in a parallel list, not a file category). -/
inductive FileCategory where
  | python | typescript | tsx | javascript | php | java | xml | terraform | config | other
deriving DecidableEq, Fintype, Repr

/-- The well-known configuration file names recognized by
`extract_project_structure`. -/
def config_file_names : List String :=
  ["requirements.txt", "pyproject.toml", "setup.py",
   "package.json", "tsconfig.json", "Dockerfile",
   "pom.xml", "build.gradle", "gradle.properties",
   "composer.json", "composer.lock"]

/-- The category of a non-directory entry, following the if/elif chain of
`extract_project_structure` on `Path(filename).suffix` and
`Path(filename).name`. -/
def file_category (filename : String) : FileCategory :=
  if pathSuffix filename = ".py" then .python
  else if pathSuffix filename = ".ts" then .typescript
  else if pathSuffix filename = ".tsx" then .tsx
  else if pathSuffix filename = ".js" then .javascript
  else if pathSuffix filename = ".php" then .php
  else if pathSuffix filename = ".java" then .java
  else if pathSuffix filename = ".xml" then .xml
  else if pathSuffix filename = ".tf" then .terraform
  else if config_file_names.contains (pathName filename) then .config
  else .other

/-- The classification record built by `extract_project_structure`. -/
structure ProjectStructure where
  directories : List String
  python_files : List String
  typescript_files : List String
  tsx_files : List String
  javascript_files : List String
  php_files : List String
  java_files : List String
  xml_files : List String
  terraform_files : List String
  config_files : List String
  other_files : List String
deriving DecidableEq, Repr

/-- The empty classification the loop starts from. -/
def empty_structure : ProjectStructure :=
  ⟨[], [], [], [], [], [], [], [], [], [], []⟩

/-- The category list of a classification, indexed by category. -/
def ProjectStructure.category_files (st : ProjectStructure) : FileCategory → List String
  | .python => st.python_files
  | .typescript => st.typescript_files
  | .tsx => st.tsx_files
  | .javascript => st.javascript_files
  | .php => st.php_files
  | .java => st.java_files
  | .xml => st.xml_files
  | .terraform => st.terraform_files
  | .config => st.config_files
  | .other => st.other_files

/-- One iteration of the `extract_project_structure` loop: append
`str(Path(filename))` to the matching list. -/
def ProjectStructure.add (st : ProjectStructure) (e : ZipEntry) : ProjectStructure :=
  let p := pathStr e.filename
  if e.is_dir then { st with directories := st.directories ++ [p] }
  else
    match file_category e.filename with
    | .python => { st with python_files := st.python_files ++ [p] }
    | .typescript => { st with typescript_files := st.typescript_files ++ [p] }
    | .tsx => { st with tsx_files := st.tsx_files ++ [p] }
    | .javascript => { st with javascript_files := st.javascript_files ++ [p] }
    | .php => { st with php_files := st.php_files ++ [p] }
    | .java => { st with java_files := st.java_files ++ [p] }
    | .xml => { st with xml_files := st.xml_files ++ [p] }
    | .terraform => { st with terraform_files := st.terraform_files ++ [p] }
    | .config => { st with config_files := st.config_files ++ [p] }
    | .other => { st with other_files := st.other_files ++ [p] }

/-- Embedding of `SourceCodeExtractor.extract_project_structure`. -/
def extract_project_structure (entries : List ZipEntry) : ProjectStructure :=
  entries.foldl ProjectStructure.add empty_structure

/-! Content extraction (`SourceCodeExtractor.extract_source_code`). -/

/-- Embedding of `str.endswith` over decoded characters. -/
def endsWithStr (s suffix : String) : Bool :=
  suffix.toList.isSuffixOf s.toList

/-- Embedding of `str.startswith`. -/
def startsWithStr (s pre : String) : Bool :=
  pre.toList.isPrefixOf s.toList

/-- Substring search over characters. -/
def containsSub : List Char → List Char → Bool
  | [], needle => needle.isEmpty
  | c :: rest, needle => needle.isPrefixOf (c :: rest) || containsSub rest needle

/-- Embedding of the substring test `"[SUMMARIZED" in content` used by the
extraction-metadata counters. -/
def containsStr (s sub : String) : Bool :=
  containsSub s.toList sub.toList

/-- Lexicographic comparison by code point, the string order of Python
`list.sort()`. -/
def lexLe : List Char → List Char → Bool
  | [], _ => true
  | _ :: _, [] => false
  | c :: cs, d :: ds => if c = d then lexLe cs ds else decide (c < d)

def insertSorted (x : String) : List String → List String
  | [] => [x]
  | y :: ys => if lexLe x.toList y.toList then x :: y :: ys else y :: insertSorted x ys

/-- Embedding of `list.sort()` on strings (a stable sort; stability and the
comparison only fix the output order, which no claim depends on). -/
def sortStrings : List String → List String
  | [] => []
  | x :: xs => insertSorted x (sortStrings xs)

/-- A zip archive as `extract_source_code` consumes it: the `namelist()`
entries and the decoded content of each readable name.  Decoding uses
`errors=ignore` and is total; `none` models a per-file read failure, which
the `try/except` in the loop skips. -/
structure Archive where
  names : List String
  content : String → Option String

/-- The extension set `SUPPORTED_CODE_EXTENSIONS`, written in source order.
(Python iterates the set in an unspecified order; the collected list is
sorted before use, so the iteration order never reaches the result.) -/
def SUPPORTED_CODE_EXTENSIONS : List String :=
  [".py", ".ts", ".tsx", ".js", ".java", ".xml", ".php"]

/-- Embedding of `_summarize_code_file`: the prompt text and per-extension
task list only shape the LLM request, so the call is the oracle
`summarizer file_path content target_size`; the code then prefixes the
returned text with the size-disclosure tag, verbatim from the source. -/
def summarize_code_file (summarizer : String → String → Nat → String)
    (file_path content : String) (target_size : Nat) : String :=
  let summary := summarizer file_path content target_size
  "[SUMMARIZED - Original size: " ++ toString content.length ++
    " chars, Summary size: " ++ toString summary.length ++ " chars] " ++ summary

/-- Python dict assignment `source_code[file_path] = content`. -/
def dictInsert (acc : List (String × String)) (k v : String) : List (String × String) :=
  if acc.any (fun p => p.1 == k) then
    acc.map (fun p => if p.1 == k then (k, v) else p)
  else acc ++ [(k, v)]

/-- Embedding of `SourceCodeExtractor.extract_source_code`: collect the
supported code files and the Terraform files from the name list, sort,
truncate to `max_files`, then read each file, summarizing oversized content
only when `summarize_large_files` is set. -/
def extract_source_code (ar : Archive) (max_files : Nat) (max_file_size : Nat)
    (summarize_large_files : Bool) (summarizer : String → String → Nat → String) :
    List (String × String) :=
  let code_files :=
    SUPPORTED_CODE_EXTENSIONS.flatMap (fun ext => ar.names.filter (fun f => endsWithStr f ext))
  let code_files := code_files ++ ar.names.filter (fun f => endsWithStr f ".tf")
  let code_files := sortStrings code_files
  (code_files.take max_files).foldl
    (fun acc file_path =>
      match ar.content file_path with
      | none => acc
      | some content =>
        let content :=
          if max_file_size < content.length && summarize_large_files then
            summarize_code_file summarizer file_path content max_file_size
          else content
        dictInsert acc file_path content)
    []

/-- What one returned content string can be, relative to the archive. -/
def ContentOk (ar : Archive) (mfs : Nat) (sf : Bool)
    (sz : String → String → Nat → String) (k c : String) : Prop :=
  ∃ orig, ar.content k = some orig ∧
    ((orig.length ≤ mfs ∧ c = orig) ∨
     (mfs < orig.length ∧ sf = true ∧ c = summarize_code_file sz k orig mfs) ∨
     (mfs < orig.length ∧ sf = false ∧ c = orig))

/-! ### Embedding of src/state.py and the graph of src/workflow.py

`StateField` lists every state key the node functions read or write: the
`ADRWorkflowState` keys of state.py plus the legacy shared-archive keys
(`source_code_zip`, `project_structure`, `source_code`, `source_code_dict`,
`extraction_metadata`) that workflow.py and context_generator_node.py still
use. -/

inductive StateField where
  | project_name | timestamp
  | terraform_minor | terraform_major
  | source_code_zip | source_code_zip_minor | source_code_zip_major
  | knowledge_base
  | architectural_context
  | project_structure | source_code | source_code_dict | extraction_metadata
  | project_structure_minor | source_code_minor | source_code_dict_minor
  | extraction_metadata_minor
  | project_structure_major | source_code_major | source_code_dict_major
  | extraction_metadata_major
  | terraform_analysis_minor | terraform_analysis_major
  | source_analysis_minor | source_analysis_major
  | improved_analysis_minor | improved_analysis_major
  | architecture_diff | adr_files
deriving DecidableEq, Fintype, Repr

/-- The seven graph nodes added by `ADRWorkflow.create_workflow`. -/
inductive NodeName where
  | create_context
  | analyze_terraform_minor | analyze_terraform_major
  | analyze_source_code_minor | analyze_source_code_major
  | do_architecture_diff | generate_adrs
deriving DecidableEq, Fintype, Repr

def allNodes : List NodeName :=
  [.create_context,
   .analyze_terraform_minor, .analyze_terraform_major,
   .analyze_source_code_minor, .analyze_source_code_major,
   .do_architecture_diff, .generate_adrs]

/-- The static write footprint of each node body, read off the state
assignments in src/nodes.  `ik` is the `include_knowledge` flag: when set
(the default), both terraform analyzer nodes execute
`state["knowledge_base"] = ""` after loading the knowledge file.
`context_generator_node` assigns `architectural_context` on every branch,
the four legacy extraction keys, and rewrites `knowledge_base` at its end.
The two source-code analyzer nodes assign the same five per-stage keys on
both the archive-present and the archive-missing branch. -/
def writes (ik : Bool) : NodeName → List StateField
  | .create_context =>
      [.architectural_context, .project_structure, .source_code,
       .source_code_dict, .extraction_metadata, .knowledge_base]
  | .analyze_terraform_minor =>
      (if ik then [.knowledge_base] else []) ++ [.terraform_analysis_minor]
  | .analyze_terraform_major =>
      (if ik then [.knowledge_base] else []) ++ [.terraform_analysis_major]
  | .analyze_source_code_minor =>
      [.project_structure_minor, .source_code_minor, .source_code_dict_minor,
       .extraction_metadata_minor, .improved_analysis_minor]
  | .analyze_source_code_major =>
      [.project_structure_major, .source_code_major, .source_code_dict_major,
       .extraction_metadata_major, .improved_analysis_major]
  | .do_architecture_diff => [.architecture_diff]
  | .generate_adrs => [.adr_files]

/-- The edge list built by `create_workflow`, for each value of
`include_terraform`. -/
def edges (include_terraform : Bool) : List (NodeName × NodeName) :=
  if include_terraform then
    [(.create_context, .analyze_terraform_minor),
     (.create_context, .analyze_terraform_major),
     (.analyze_terraform_minor, .analyze_source_code_minor),
     (.analyze_terraform_major, .analyze_source_code_major),
     (.analyze_source_code_minor, .do_architecture_diff),
     (.analyze_source_code_major, .do_architecture_diff),
     (.do_architecture_diff, .generate_adrs)]
  else
    [(.create_context, .analyze_source_code_minor),
     (.create_context, .analyze_source_code_major),
     (.analyze_source_code_minor, .do_architecture_diff),
     (.analyze_source_code_major, .do_architecture_diff),
     (.do_architecture_diff, .generate_adrs)]

/-- LangGraph executes a compiled graph in supersteps (a bulk-synchronous
Pregel loop): every task of a superstep finishes and its channel writes are
applied before the next superstep is planned.  `active it k` is the set of
nodes that run in superstep `k`: the entry point at step 0, then exactly
the nodes with an in-edge from a node of the previous step. -/
def active (it : Bool) : Nat → List NodeName
  | 0 => [.create_context]
  | k + 1 =>
      allNodes.filter (fun n => (active it k).any (fun m => (edges it).contains (m, n)))

/-- The superstep at which each node runs in the `include_terraform=True`
graph. -/
def superstep_true : NodeName → Nat
  | .create_context => 0
  | .analyze_terraform_minor => 1
  | .analyze_terraform_major => 1
  | .analyze_source_code_minor => 2
  | .analyze_source_code_major => 2
  | .do_architecture_diff => 3
  | .generate_adrs => 4

/-- Two steps may execute concurrently when some superstep runs both. -/
def concurrent (n1 n2 : NodeName) : Prop :=
  n1 ≠ n2 ∧ ∃ k, n1 ∈ active true k ∧ n2 ∈ active true k

/-- Which fields have been written (or were present initially) before
superstep `k` starts. -/
def fields_present (it ik : Bool) (initHas : StateField → Bool) : Nat → StateField → Bool
  | 0, f => initHas f
  | k + 1, f =>
      fields_present it ik initHas k f ||
        (active it k).any (fun n => (writes ik n).contains f)

/-! ### The initial state built by `ADRWorkflow.create` (src/workflow.py) -/

/-- Embedding of the `initial_state` dictionary of `ADRWorkflow.create`: a
partial map on state keys.  The config lookups `project_config.get(k, d)`
are total on the embedded `ProjectConfig`, and `base_dir` reproduces the
trailing-slash normalization of the source. -/
def create_initial_state (project_dir : String) (cfg : ProjectConfig)
    (timestamp : String) : StateField → Option String :=
  let base_dir := if endsWithStr project_dir "/" then project_dir else project_dir ++ "/"
  fun f =>
    match f with
    | .project_name => some cfg.project_name
    | .terraform_minor => some (base_dir ++ cfg.terraform_minor)
    | .terraform_major => some (base_dir ++ cfg.terraform_major)
    | .source_code_zip => some (base_dir ++ cfg.source_code_zip)
    | .knowledge_base => some cfg.knowledge_base
    | .timestamp => some timestamp
    | _ => none

/-- The six keys of the initial state, as the source writes them. -/
def initial_state_keys : List StateField :=
  [.project_name, .terraform_minor, .terraform_major,
   .source_code_zip, .knowledge_base, .timestamp]

/-- The superstep of each node in the `include_terraform=False` graph (the
two terraform nodes are not added to that graph). -/
def superstep_false : NodeName → Nat
  | .create_context => 0
  | .analyze_terraform_minor => 5
  | .analyze_terraform_major => 5
  | .analyze_source_code_minor => 1
  | .analyze_source_code_major => 1
  | .do_architecture_diff => 2
  | .generate_adrs => 3

/-- The nodes present in each graph variant. -/
def graph_nodes (it : Bool) : List NodeName :=
  if it then allNodes
  else
    [.create_context, .analyze_source_code_minor, .analyze_source_code_major,
     .do_architecture_diff, .generate_adrs]

/-! ### Data-level embedding of the node functions (src/nodes)

`WState` carries the values the node bodies read and write.  Keys that are
always present when a node body reads them with `state[...]` are plain
values; keys read through `state.get(...)` or first written mid-run are
`Option`s, with `none` for an absent key. -/

/-- The extraction-metadata dictionaries built by the source-code analyzer
nodes. -/
structure ExtractionMetadata where
  total_files : Nat
  summarized_files : Option Nat := none
  full_files : Option Nat := none
  branch : String
  note : Option String := none
deriving DecidableEq, Repr

structure WState where
  project_name : String := ""
  timestamp : String := ""
  terraform_minor : String := ""
  terraform_major : String := ""
  source_code_zip : String := ""
  source_code_zip_minor : Option String := none
  source_code_zip_major : Option String := none
  knowledge_base : String := ""
  architectural_context : String := ""
  project_structure : Option String := none
  source_code : Option String := none
  source_code_dict : Option (List (String × String)) := none
  extraction_metadata : Option ExtractionMetadata := none
  project_structure_minor : Option String := none
  source_code_minor : Option String := none
  source_code_dict_minor : Option (List (String × String)) := none
  extraction_metadata_minor : Option ExtractionMetadata := none
  project_structure_major : Option String := none
  source_code_major : Option String := none
  source_code_dict_major : Option (List (String × String)) := none
  extraction_metadata_major : Option ExtractionMetadata := none
  terraform_analysis_minor : Option String := none
  terraform_analysis_major : Option String := none
  improved_analysis_minor : Option String := none
  improved_analysis_major : Option String := none
  architecture_diff : Option String := none
  adr_files : Option (List (String × String)) := none

/-- The external collaborators of the node bodies: file reads and every LLM
invocation, one oracle function per call site.  `theoretical_context` and
`generated_context` stand for the fixed Markdown literal of
`_generate_theoretical_context` and for the LLM-generated alternative; both
are inert for every claim. -/
structure Oracles where
  read_file : String → String
  theoretical_context : String
  generated_context : String
  tf_analysis : String → String → String → String → String
  structure_report : String → String
  code_dict : String → List (String × String)
  improved : String → String → String → String → String → String
  comparison : String → String → String → String
  adr_response : String → String → List ADR

/-- The keyword parameters `ContextGenerator.__init__` accepts
(context_generator.py): only `llm`. -/
def ContextGenerator_init_params : List String := ["llm"]

/-- A Python keyword call: passing a keyword the callee does not declare
raises `TypeError`. -/
def python_keyword_call (accepted passed : List String) : Except PyErr Unit :=
  match passed.find? (fun k => !(accepted.contains k)) with
  | some bad => .error (.typeError ("unexpected keyword argument " ++ bad))
  | none => .ok ()

/-- `ContextGenerator` defines no `generate_context` method: the class
docstring records that source-code extraction moved to
`SourceCodeExtractor`, so the attribute lookup raises. -/
def ContextGenerator_generate_context :
    Except PyErr (String × String × List (String × String) × ExtractionMetadata) :=
  .error (.attributeError "generate_context")

/-- Embedding of `context_generator_node` (context_generator_node.py).  The
node fills `architectural_context`, then constructs
`ContextGenerator(llm=..., summarize_large_files=...)` and calls
`generate_context` on it; both steps fail against the class as committed,
so the function can only return an error.  The writes after the call are
kept for faithfulness to the source text. -/
def context_generator_node (o : Oracles) (reuse_context include_knowledge : Bool)
    (s : WState) : Except PyErr WState := do
  let s :=
    if !include_knowledge then { s with architectural_context := "" }
    else if reuse_context then { s with architectural_context := o.theoretical_context }
    else { s with architectural_context := o.generated_context }
  let _ ← python_keyword_call ContextGenerator_init_params ["llm", "summarize_large_files"]
  let pc ← ContextGenerator_generate_context
  let s := { s with
    project_structure := some pc.1
    source_code := some pc.2.1
    source_code_dict := some pc.2.2.1
    extraction_metadata := some pc.2.2.2 }
  let path_knowledge_base := s.knowledge_base
  let s := { s with
    knowledge_base :=
      if !startsWithStr path_knowledge_base "../" then "../" ++ path_knowledge_base
      else path_knowledge_base }
  return s

/-- Embedding of `terraform_analyzer_minor_node`. -/
def terraform_analyzer_minor_node (o : Oracles) (include_knowledge : Bool)
    (s : WState) : WState :=
  let knowledge_base_content := if include_knowledge then o.read_file s.knowledge_base else ""
  let s := if include_knowledge then { s with knowledge_base := "" } else s
  let terraform_minor_content := o.read_file s.terraform_minor
  let result := o.tf_analysis knowledge_base_content terraform_minor_content
    s.architectural_context ((s.project_structure).getD "")
  { s with terraform_analysis_minor := some result }

/-- Embedding of `terraform_analyzer_major_node`. -/
def terraform_analyzer_major_node (o : Oracles) (include_knowledge : Bool)
    (s : WState) : WState :=
  let knowledge_base_content := if include_knowledge then o.read_file s.knowledge_base else ""
  let s := if include_knowledge then { s with knowledge_base := "" } else s
  let terraform_major_content := o.read_file s.terraform_major
  let result := o.tf_analysis knowledge_base_content terraform_major_content
    s.architectural_context ((s.project_structure).getD "")
  { s with terraform_analysis_major := some result }

/-- The `"\n\n".join(...)` rendering of an extracted path-to-content
dictionary. -/
def join_code_dict (d : List (String × String)) : String :=
  String.intercalate "\n\n" (d.map (fun p => "=== " ++ p.1 ++ " ===\n" ++ p.2))

/-- Embedding of `source_code_analyzer_minor_node`: with a per-stage archive
path it extracts and analyses; without one it stores empty extraction data
and passes the terraform analysis through as the improved analysis.  (The
module-global `_missing_branches` set only feeds a log line and is not
modelled.) -/
def source_code_analyzer_minor_node (o : Oracles) (s : WState) : WState :=
  let source_code_zip := (s.source_code_zip_minor).getD ""
  if source_code_zip ≠ "" then
    let project_structure := o.structure_report source_code_zip
    let source_code_dict := o.code_dict source_code_zip
    let source_code := join_code_dict source_code_dict
    let n_sum := (source_code_dict.filter (fun p => containsStr p.2 "[SUMMARIZED")).length
    let n_full := (source_code_dict.filter (fun p => !containsStr p.2 "[SUMMARIZED")).length
    let metadata : ExtractionMetadata :=
      { total_files := source_code_dict.length, summarized_files := some n_sum,
        full_files := some n_full, branch := "minor" }
    let result := o.improved s.architectural_context ((s.terraform_analysis_minor).getD "")
      source_code project_structure "minor"
    { s with
      project_structure_minor := some project_structure
      source_code_minor := some source_code
      source_code_dict_minor := some source_code_dict
      extraction_metadata_minor := some metadata
      improved_analysis_minor := some result }
  else
    let metadata : ExtractionMetadata :=
      { total_files := 0, branch := "minor", note := some "Source code not available" }
    { s with
      project_structure_minor := some ""
      source_code_minor := some ""
      source_code_dict_minor := some []
      extraction_metadata_minor := some metadata
      improved_analysis_minor := some ((s.terraform_analysis_minor).getD "") }

/-- Embedding of `source_code_analyzer_major_node`. -/
def source_code_analyzer_major_node (o : Oracles) (s : WState) : WState :=
  let source_code_zip := (s.source_code_zip_major).getD ""
  if source_code_zip ≠ "" then
    let project_structure := o.structure_report source_code_zip
    let source_code_dict := o.code_dict source_code_zip
    let source_code := join_code_dict source_code_dict
    let n_sum := (source_code_dict.filter (fun p => containsStr p.2 "[SUMMARIZED")).length
    let n_full := (source_code_dict.filter (fun p => !containsStr p.2 "[SUMMARIZED")).length
    let metadata : ExtractionMetadata :=
      { total_files := source_code_dict.length, summarized_files := some n_sum,
        full_files := some n_full, branch := "major" }
    let result := o.improved s.architectural_context ((s.terraform_analysis_major).getD "")
      source_code project_structure "major"
    { s with
      project_structure_major := some project_structure
      source_code_major := some source_code
      source_code_dict_major := some source_code_dict
      extraction_metadata_major := some metadata
      improved_analysis_major := some result }
  else
    let metadata : ExtractionMetadata :=
      { total_files := 0, branch := "major", note := some "Source code not available" }
    { s with
      project_structure_major := some ""
      source_code_major := some ""
      source_code_dict_major := some []
      extraction_metadata_major := some metadata
      improved_analysis_major := some ((s.terraform_analysis_major).getD "") }

/-- Embedding of `architecture_diff_node`. -/
def architecture_diff_node (o : Oracles) (s : WState) : WState :=
  let result := o.comparison ((s.improved_analysis_minor).getD "")
    ((s.improved_analysis_major).getD "") s.architectural_context
  { s with architecture_diff := some result }

/-- Embedding of `adr_generator_node`, reusing the embedded
`ADRGenerator.generate` on the structured response of the oracle. -/
def adr_generator_node (o : Oracles) (s : WState) : WState :=
  let adrs := o.adr_response ((s.architecture_diff).getD "") s.architectural_context
  { s with adr_files := some (ADRGenerator.generate s.project_name adrs) }

/-- One full run of the default workflow, with the nodes applied in a
schedule consistent with the superstep order of `active true`
(the two members of each parallel pair write disjoint state, so their
relative order is immaterial; see the write-footprint theorems). -/
def run_workflow (o : Oracles) (include_terraform include_knowledge reuse_context : Bool)
    (s0 : WState) : Except PyErr WState := do
  let s1 ← context_generator_node o reuse_context include_knowledge s0
  let s2 :=
    if include_terraform then
      terraform_analyzer_major_node o include_knowledge
        (terraform_analyzer_minor_node o include_knowledge s1)
    else s1
  let s3 := source_code_analyzer_major_node o (source_code_analyzer_minor_node o s2)
  let s4 := architecture_diff_node o s3
  return adr_generator_node o s4

/-- A minimal well-formed decision record, for concrete evaluations. -/
def plainADR (k : Nat) : ADR where
  adr_name := "decision " ++ toString k
  title := "t"
  status := "Proposed"
  motivation := "m"
  decision_drivers := ["d1"]
  main_decision := "x"
  alternatives := ["alt"]
  pros := "p"
  cons := "c"
  consequences := "q"
  validation := "v"
  additional_information := "i"

def sixADRs : List ADR :=
  [plainADR 1, plainADR 2, plainADR 3, plainADR 4, plainADR 5, plainADR 6]

/-- A record whose title itself contains a heading-marker line. -/
def headingTitleADR : ADR := { plainADR 0 with title := "t\n## Status" }

/-- Trivial oracle values, for concrete evaluations of the node functions. -/
def trivialOracles : Oracles where
  read_file := fun _ => ""
  theoretical_context := ""
  generated_context := ""
  tf_analysis := fun _ _ _ _ => ""
  structure_report := fun _ => ""
  code_dict := fun _ => []
  improved := fun _ _ _ _ _ => ""
  comparison := fun _ _ _ => ""
  adr_response := fun _ _ => []

/-- An archive holding one oversized python file, against a 3-character
size bound. -/
def oversizedArchive : Archive where
  names := ["a.py"]
  content := fun n => if n = "a.py" then some "xxxxxx" else none

/-- An archive holding one small python file. -/
def smallArchive : Archive where
  names := ["b.py"]
  content := fun n => if n = "b.py" then some "ok" else none

/-- Success test on the factory result. -/
def exceptIsOk {ε α : Type} : Except ε α → Bool
  | .ok _ => true
  | .error _ => false

/-- A record carrying a status outside the five-value enumeration. -/
def badStatusADR : ADR := { plainADR 0 with status := "Draft" }

theorem splitChar_ne_nil (sep : Char) (cs : List Char) : splitChar sep cs ≠ [] := by
  cases cs with
  | nil => simp [splitChar]
  | cons c rest =>
    simp only [splitChar]
    split
    · simp
    · cases splitChar sep rest <;> simp

theorem splitChar_eq_single (sep : Char) (p : List Char) (h : sep ∉ p) :
    splitChar sep p = [p] := by
  induction p with
  | nil => simp [splitChar]
  | cons c cs ih =>
    have hc : c ≠ sep := by rintro rfl; exact h (List.mem_cons_self c cs)
    have hcs : sep ∉ cs := fun hm => h (List.mem_cons_of_mem c hm)
    simp only [splitChar, if_neg hc, ih hcs]

theorem splitChar_append_sep (sep : Char) (a b : List Char) (h : sep ∉ a) :
    splitChar sep (a ++ sep :: b) = a :: splitChar sep b := by
  induction a with
  | nil => simp [splitChar]
  | cons c rest ih =>
    have hc : c ≠ sep := by rintro rfl; exact h (List.mem_cons_self c rest)
    have hrest : sep ∉ rest := fun hm => h (List.mem_cons_of_mem c hm)
    have h2 : splitChar sep (rest.append (sep :: b)) = rest :: splitChar sep b := ih hrest
    have hne := splitChar_ne_nil sep b
    simp only [List.cons_append, splitChar, if_neg hc, h2]

/-- Splitting a separator-joined list of separator-free chunks recovers the
chunks.  This ties the rendered (joined) document back to its line list. -/
theorem splitChar_joinChar (sep : Char) (ps : List (List Char))
    (hne : ps ≠ []) (hfree : ∀ p ∈ ps, sep ∉ p) :
    splitChar sep (joinChar sep ps) = ps := by
  induction ps with
  | nil => cases hne rfl
  | cons p rest ih =>
    cases rest with
    | nil =>
      have hp : sep ∉ p := hfree p (List.mem_cons_self p [])
      simp only [joinChar, splitChar_eq_single sep p hp]
    | cons q rest2 =>
      have hp : sep ∉ p := hfree p (List.mem_cons_self p _)
      have hrest : ∀ x ∈ q :: rest2, sep ∉ x := fun x hx =>
        hfree x (List.mem_cons_of_mem p hx)
      have hjoin : joinChar sep (p :: q :: rest2) = p ++ sep :: joinChar sep (q :: rest2) := by
        simp [joinChar]
      rw [hjoin, splitChar_append_sep sep p _ hp, ih (by simp) hrest]

/-! Bridge: the line decomposition of an intercalated string is the
concatenation of the line decompositions of the pieces. -/

theorem splitChar_append_sep_general (sep : Char) (a b : List Char) :
    splitChar sep (a ++ sep :: b) = splitChar sep a ++ splitChar sep b := by
  induction a with
  | nil => simp [splitChar]
  | cons c rest ih =>
    by_cases hc : c = sep
    · subst hc
      show splitChar c (c :: (rest ++ c :: b)) =
        splitChar c (c :: rest) ++ splitChar c b
      simp [splitChar, ih]
    · obtain ⟨h2, t2, heq2⟩ : ∃ h2 t2, splitChar sep rest = h2 :: t2 := by
        cases hsr : splitChar sep rest with
        | nil => exact absurd hsr (splitChar_ne_nil _ _)
        | cons h2 t2 => exact ⟨h2, t2, rfl⟩
      have heq : splitChar sep (rest ++ sep :: b) = h2 :: (t2 ++ splitChar sep b) := by
        rw [ih, heq2]; rfl
      show splitChar sep (c :: (rest ++ sep :: b)) =
        splitChar sep (c :: rest) ++ splitChar sep b
      simp only [splitChar, if_neg hc, heq, heq2, List.cons_append]

theorem toList_append (x y : String) : (x ++ y).toList = x.toList ++ y.toList :=
  String.data_append x y

theorem intercalate_go_toList (s : String) (as : List String) (acc : String) :
    (String.intercalate.go acc s as).toList =
      acc.toList ++ as.flatMap (fun a => s.toList ++ a.toList) := by
  induction as generalizing acc with
  | nil => simp [String.intercalate.go]
  | cons a as ih =>
    simp only [String.intercalate.go, ih, List.flatMap_cons, toList_append,
      List.append_assoc]

theorem splitChar_chunks (sep : Char) (x : List Char) (xs : List (List Char)) :
    splitChar sep (x ++ xs.flatMap (fun a => sep :: a)) =
      splitChar sep x ++ xs.flatMap (fun a => splitChar sep a) := by
  induction xs generalizing x with
  | nil => simp
  | cons y ys ih =>
    have : x ++ (y :: ys).flatMap (fun a => sep :: a) =
        x ++ sep :: (y ++ ys.flatMap (fun a => sep :: a)) := by
      simp [List.flatMap_cons]
    rw [this, splitChar_append_sep_general, ih y, List.flatMap_cons]

/-- The lines of a newline-joined list of strings are the concatenated lines
of the strings: the line list written by `to_markdown` survives the join. -/
theorem linesOf_intercalate (x : String) (xs : List String) :
    linesOf (String.intercalate "\n" (x :: xs)) = (x :: xs).flatMap linesOf := by
  have hnl : ("\n" : String).toList = [Char.ofNat 10] := rfl
  have h1 : (String.intercalate "\n" (x :: xs)).toList =
      x.toList ++ (xs.map String.toList).flatMap (fun a => Char.ofNat 10 :: a) := by
    show (String.intercalate.go x "\n" xs).toList = _
    rw [intercalate_go_toList]
    simp [hnl, List.flatMap_map]
  unfold linesOf
  rw [h1, splitChar_chunks]
  simp only [List.map_append, List.flatMap_cons, List.map_flatMap, List.flatMap_map]

theorem doc_lines_eq (a : ADR) :
    a.doc_lines = a.to_markdown_lines.flatMap linesOf := by
  have : ∃ x xs, a.to_markdown_lines = x :: xs := by
    refine ⟨_, _, rfl⟩
  obtain ⟨x, xs, hx⟩ := this
  unfold ADR.doc_lines ADR.to_markdown
  rw [hx, linesOf_intercalate]

/-! Heading structure of a rendered document. -/

theorem sublist_skip_block {α : Type} {xs rest : List α} (G : List α)
    (h : xs.Sublist rest) : xs.Sublist (G ++ rest) :=
  h.trans (List.sublist_append_right G rest)

theorem sublist_flatMap {α β : Type} {l₁ l₂ : List α} (f : α → List β)
    (h : l₁.Sublist l₂) : (l₁.flatMap f).Sublist (l₂.flatMap f) := by
  induction h with
  | slnil => simp
  | cons a h ih => simpa only [List.flatMap_cons] using sublist_skip_block _ ih
  | cons₂ a h ih => simpa only [List.flatMap_cons] using ih.append_left (f a)

/-- The eleven fixed headings occur, in order, among the elements of the
`lines` list that `to_markdown` builds. -/
theorem headings_sublist_markdown_lines (a : ADR) :
    fixed_section_headings.Sublist a.to_markdown_lines := by
  unfold fixed_section_headings ADR.to_markdown_lines
  simp only [List.cons_append, List.nil_append, List.append_assoc]
  refine .cons _ (.cons _ (.cons₂ _ (.cons _ (.cons _ (.cons₂ _ (.cons _ (.cons _
    (.cons₂ _ (.cons _ (.cons _ (.cons₂ _ ?_)))))))))))
  refine sublist_skip_block _ ?_
  refine .cons _ (.cons₂ _ (.cons _ (.cons _ (.cons₂ _ ?_))))
  refine sublist_skip_block _ ?_
  refine .cons _ (.cons₂ _ (.cons _ (.cons _ (.cons₂ _ (.cons _ (.cons _ (.cons₂ _
    (.cons _ (.cons _ (.cons₂ _ (.cons _ (.cons _ (.cons₂ _ (List.nil_sublist _))))))))))))))

/-- The eleven fixed headings occur, in order, among the lines of the
rendered document, whatever the record contains. -/
theorem headings_sublist_doc_lines (a : ADR) :
    fixed_section_headings.Sublist a.doc_lines := by
  rw [doc_lines_eq]
  have hself : fixed_section_headings.flatMap linesOf = fixed_section_headings := by decide
  have h2 := sublist_flatMap linesOf (headings_sublist_markdown_lines a)
  rw [hself] at h2
  exact h2

/-- When every spliced text is heading-free, the heading lines of the
rendered document are exactly the eleven fixed headings, in order. -/
theorem heading_lines_exact (a : ADR)
    (hclean : ∀ s ∈ a.spliced_texts, clean_str s = true) :
    heading_lines a.doc_lines = fixed_section_headings := by
  have hnil : ∀ s ∈ a.spliced_texts, (linesOf s).filter is_fixed_heading = [] := by
    intro s hs
    rw [List.filter_eq_nil_iff]
    intro l hl
    have := List.all_eq_true.mp (hclean s hs) l hl
    simpa using this
  have mem_lit : ∀ s ∈ ([ "# ADR: " ++ a.adr_name, a.title, a.status, a.motivation,
      a.main_decision, a.pros, a.cons, a.consequences, a.validation,
      a.additional_information] : List String), s ∈ a.spliced_texts := by
    intro s hs
    exact List.mem_append_left _ (List.mem_append_left _ hs)
  have hname := hnil ("# ADR: " ++ a.adr_name) (mem_lit _ (by simp))
  have htitle := hnil a.title (mem_lit _ (by simp))
  have hstatus := hnil a.status (mem_lit _ (by simp))
  have hmot := hnil a.motivation (mem_lit _ (by simp))
  have hmain := hnil a.main_decision (mem_lit _ (by simp))
  have hpros := hnil a.pros (mem_lit _ (by simp))
  have hcons := hnil a.cons (mem_lit _ (by simp))
  have hcq := hnil a.consequences (mem_lit _ (by simp))
  have hval := hnil a.validation (mem_lit _ (by simp))
  have hai := hnil a.additional_information (mem_lit _ (by simp))
  have hdriv : (a.decision_drivers.map (fun driver => "- " ++ driver)).flatMap
      (fun s => (linesOf s).filter is_fixed_heading) = [] := by
    rw [List.flatMap_eq_nil_iff]
    intro x hx
    obtain ⟨d, hd, rfl⟩ := List.mem_map.mp hx
    refine hnil _ ?_
    exact List.mem_append_left _ (List.mem_append_right _ (List.mem_map_of_mem _ hd))
  have halt : (a.alternatives.map (fun alt => "- " ++ alt)).flatMap
      (fun s => (linesOf s).filter is_fixed_heading) = [] := by
    rw [List.flatMap_eq_nil_iff]
    intro x hx
    obtain ⟨d, hd, rfl⟩ := List.mem_map.mp hx
    refine hnil _ ?_
    exact List.mem_append_right _ (List.mem_map_of_mem _ hd)
  have hblank : (linesOf "").filter is_fixed_heading = [] := by decide
  have e1 : (linesOf "## Title").filter is_fixed_heading = ["## Title"] := by decide
  have e2 : (linesOf "## Status").filter is_fixed_heading = ["## Status"] := by decide
  have e3 : (linesOf "## Motivation").filter is_fixed_heading = ["## Motivation"] := by decide
  have e4 : (linesOf "## Decision Drivers").filter is_fixed_heading =
      ["## Decision Drivers"] := by decide
  have e5 : (linesOf "## Main Decision").filter is_fixed_heading =
      ["## Main Decision"] := by decide
  have e6 : (linesOf "## Alternatives").filter is_fixed_heading =
      ["## Alternatives"] := by decide
  have e7 : (linesOf "## Pros").filter is_fixed_heading = ["## Pros"] := by decide
  have e8 : (linesOf "## Cons").filter is_fixed_heading = ["## Cons"] := by decide
  have e9 : (linesOf "## Consequences").filter is_fixed_heading =
      ["## Consequences"] := by decide
  have e10 : (linesOf "## Validation").filter is_fixed_heading =
      ["## Validation"] := by decide
  have e11 : (linesOf "## Additional Information").filter is_fixed_heading =
      ["## Additional Information"] := by decide
  unfold heading_lines
  rw [doc_lines_eq, List.filter_flatMap]
  simp only [ADR.to_markdown_lines, List.flatMap_append, List.flatMap_cons,
    List.flatMap_nil, hname, htitle, hstatus, hmot, hmain, hpros, hcons, hcq,
    hval, hai, hdriv, halt, hblank, e1, e2, e3, e4, e5, e6, e7, e8, e9, e10, e11,
    List.nil_append, List.append_nil]
  rfl

/-! Path normalization interacts with classification: the stored strings are
`str(Path(filename))`, and the category of a path is invariant under that
normalization, which is what makes the category lists disjoint. -/

theorem sep_not_mem_splitChar (sep : Char) (cs : List Char) :
    ∀ p ∈ splitChar sep cs, sep ∉ p := by
  induction cs with
  | nil =>
    intro p hp
    simp only [splitChar, List.mem_singleton] at hp
    simp [hp]
  | cons c rest ih =>
    intro p hp
    by_cases hc : c = sep
    · subst hc
      rw [show splitChar c (c :: rest) = [] :: splitChar c rest from by simp [splitChar]] at hp
      rcases List.mem_cons.mp hp with rfl | hp2
      · simp
      · exact ih p hp2
    · obtain ⟨h2, t2, heq2⟩ : ∃ h2 t2, splitChar sep rest = h2 :: t2 := by
        cases hsr : splitChar sep rest with
        | nil => exact absurd hsr (splitChar_ne_nil _ _)
        | cons h2 t2 => exact ⟨h2, t2, rfl⟩
      rw [show splitChar sep (c :: rest) = (c :: h2) :: t2 from by
        simp [splitChar, hc, heq2]] at hp
      rcases List.mem_cons.mp hp with rfl | hp2
      · intro hmem
        rcases List.mem_cons.mp hmem with rfl | hmem2
        · exact hc rfl
        · exact ih h2 (by rw [heq2]; exact List.mem_cons_self h2 t2) hmem2
      · exact ih p (by rw [heq2]; exact List.mem_cons_of_mem h2 hp2)

theorem pathParts_pathStr (f : String) : pathParts (pathStr f) = pathParts f := by
  unfold pathStr
  cases hp : pathParts f with
  | nil =>
    show pathParts "." = []
    decide
  | cons q qs =>
    have hsub : ∀ p ∈ q :: qs, p ∈ splitChar '/' f.toList := by
      intro p hpmem
      have hpf : p ∈ pathParts f := hp ▸ hpmem
      unfold pathParts at hpf
      exact List.mem_of_mem_filter hpf
    have hfree : ∀ p ∈ q :: qs, '/' ∉ p := fun p hpmem =>
      sep_not_mem_splitChar '/' f.toList p (hsub p hpmem)
    have hkeep : ∀ p ∈ q :: qs, (!(decide (p = []) || decide (p = ['.']))) = true := by
      intro p hpmem
      have hpf : p ∈ pathParts f := hp ▸ hpmem
      unfold pathParts at hpf
      exact (List.mem_filter.mp hpf).2
    unfold pathParts
    rw [show (String.mk (joinChar '/' (q :: qs))).toList = joinChar '/' (q :: qs) from rfl]
    rw [splitChar_joinChar '/' (q :: qs) (by simp) hfree]
    exact List.filter_eq_self.mpr hkeep

theorem pathNameChars_pathStr (f : String) : pathNameChars (pathStr f) = pathNameChars f := by
  unfold pathNameChars
  rw [pathParts_pathStr]

theorem pathName_pathStr (f : String) : pathName (pathStr f) = pathName f := by
  unfold pathName
  rw [pathNameChars_pathStr]

theorem pathSuffix_pathStr (f : String) : pathSuffix (pathStr f) = pathSuffix f := by
  unfold pathSuffix
  rw [pathNameChars_pathStr]

/-- The category of an entry is a function of the normalized path the
classifier stores. -/
theorem file_category_pathStr (f : String) :
    file_category (pathStr f) = file_category f := by
  unfold file_category
  rw [pathSuffix_pathStr, pathName_pathStr]

theorem add_category_files (st : ProjectStructure) (e : ZipEntry) (c : FileCategory) :
    (st.add e).category_files c =
      if !e.is_dir && (file_category e.filename == c)
      then st.category_files c ++ [pathStr e.filename]
      else st.category_files c := by
  unfold ProjectStructure.add
  by_cases hd : e.is_dir
  · simp only [hd, if_pos, Bool.not_true, Bool.false_and, if_neg]
    cases c <;> rfl
  · simp only [hd, Bool.not_false, Bool.true_and, if_neg]
    cases hcat : file_category e.filename <;> cases c <;>
      simp [ProjectStructure.category_files, hcat]

/-- The category lists of the classifier are the filtered, normalized file
entries, in archive order. -/
theorem category_files_foldl (entries : List ZipEntry) (acc : ProjectStructure)
    (c : FileCategory) :
    (entries.foldl ProjectStructure.add acc).category_files c =
      acc.category_files c ++
        (entries.filter (fun e => !e.is_dir && (file_category e.filename == c))).map
          (fun e => pathStr e.filename) := by
  induction entries generalizing acc with
  | nil => simp
  | cons e rest ih =>
    rw [List.foldl_cons, ih, List.filter_cons]
    by_cases h : (!e.is_dir && (file_category e.filename == c)) = true
    · rw [add_category_files, if_pos h, h]
      simp
    · rw [add_category_files, if_neg h, Bool.not_eq_true] at *
      rw [h]
      simp

theorem category_files_extract (entries : List ZipEntry) (c : FileCategory) :
    (extract_project_structure entries).category_files c =
      (entries.filter (fun e => !e.is_dir && (file_category e.filename == c))).map
        (fun e => pathStr e.filename) := by
  unfold extract_project_structure
  rw [category_files_foldl]
  cases c <;> rfl

/-- Every non-directory entry lands in the category list its path maps to. -/
theorem classify_covers (entries : List ZipEntry) (e : ZipEntry)
    (he : e ∈ entries) (hfile : e.is_dir = false) :
    pathStr e.filename ∈
      (extract_project_structure entries).category_files (file_category e.filename) := by
  rw [category_files_extract]
  refine List.mem_map_of_mem _ ?_
  rw [List.mem_filter]
  exact ⟨he, by simp [hfile]⟩

/-- A path can appear in at most one category list: the ten lists are
pairwise disjoint. -/
theorem classify_disjoint (entries : List ZipEntry) (c1 c2 : FileCategory) (p : String)
    (h1 : p ∈ (extract_project_structure entries).category_files c1)
    (h2 : p ∈ (extract_project_structure entries).category_files c2) :
    c1 = c2 := by
  rw [category_files_extract] at h1 h2
  obtain ⟨e1, he1, hp1⟩ := List.mem_map.mp h1
  obtain ⟨e2, he2, hp2⟩ := List.mem_map.mp h2
  have hc1 : file_category e1.filename = c1 := by
    have h := (List.mem_filter.mp he1).2
    simp at h
    exact h.2
  have hc2 : file_category e2.filename = c2 := by
    have h := (List.mem_filter.mp he2).2
    simp at h
    exact h.2
  have : file_category p = c1 := by
    rw [← hp1, file_category_pathStr, hc1]
  have h2c : file_category p = c2 := by
    rw [← hp2, file_category_pathStr, hc2]
  rw [← this, h2c]

theorem dictInsert_length (acc : List (String × String)) (k v : String) :
    (dictInsert acc k v).length ≤ acc.length + 1 := by
  unfold dictInsert
  split
  · simp [List.length_map]
  · simp

/-- The loop adds at most one dictionary entry per processed name. -/
theorem extract_foldl_length (ar : Archive) (mfs : Nat) (sf : Bool)
    (sz : String → String → Nat → String) (files : List String) :
    ∀ acc : List (String × String),
      (files.foldl
        (fun acc file_path =>
          match ar.content file_path with
          | none => acc
          | some content =>
            let content :=
              if mfs < content.length && sf then
                summarize_code_file sz file_path content mfs
              else content
            dictInsert acc file_path content)
        acc).length ≤ acc.length + files.length := by
  induction files with
  | nil => intro acc; simp
  | cons f rest ih =>
    intro acc
    rw [List.foldl_cons]
    cases hc : ar.content f with
    | none =>
      calc _ ≤ acc.length + rest.length := by simpa [hc] using ih acc
        _ ≤ acc.length + (f :: rest).length := by simp
    | some content =>
      have h1 := ih (dictInsert acc f (if mfs < content.length && sf then
        summarize_code_file sz f content mfs else content))
      have h2 := dictInsert_length acc f (if mfs < content.length && sf then
        summarize_code_file sz f content mfs else content)
      simp only [hc]
      calc _ ≤ _ := h1
        _ ≤ (acc.length + 1) + rest.length := by omega
        _ = acc.length + (f :: rest).length := by simp; omega

theorem take_length_le {α : Type} (l : List α) (n : Nat) : (l.take n).length ≤ n :=
  le_trans (le_of_eq (List.length_take n l)) (min_le_left n l.length)

/-- `extract_source_code` returns at most `max_files` entries. -/
theorem extract_source_code_length (ar : Archive) (max_files max_file_size : Nat)
    (sf : Bool) (sz : String → String → Nat → String) :
    (extract_source_code ar max_files max_file_size sf sz).length ≤ max_files := by
  unfold extract_source_code
  refine le_trans (extract_foldl_length ar max_file_size sf sz _ []) ?_
  simp only [List.length_nil, Nat.zero_add]
  exact take_length_le _ max_files

theorem dictInsert_mem (acc : List (String × String)) (k v : String)
    (pr : String × String) (h : pr ∈ dictInsert acc k v) :
    pr ∈ acc ∨ pr = (k, v) := by
  unfold dictInsert at h
  split at h
  · obtain ⟨q, hq, hqe⟩ := List.mem_map.mp h
    by_cases hqk : (q.1 == k) = true
    · right; rw [← hqe]; simp [hqk]
    · left
      rw [← hqe]
      simpa [hqk] using hq
  · rcases List.mem_append.mp h with h2 | h2
    · exact Or.inl h2
    · right; simpa using h2

/-- Loop invariant: every dictionary entry is a read content, passed through
unchanged when small (or when summarization is off), and tagged-summarized
when oversized with summarization on. -/
theorem extract_foldl_content (ar : Archive) (mfs : Nat) (sf : Bool)
    (sz : String → String → Nat → String) (files : List String) :
    ∀ acc : List (String × String),
      (∀ pr ∈ acc, ContentOk ar mfs sf sz pr.1 pr.2) →
      ∀ pr ∈ (files.foldl
        (fun acc file_path =>
          match ar.content file_path with
          | none => acc
          | some content =>
            let content :=
              if mfs < content.length && sf then
                summarize_code_file sz file_path content mfs
              else content
            dictInsert acc file_path content)
        acc), ContentOk ar mfs sf sz pr.1 pr.2 := by
  induction files with
  | nil => intro acc hacc; simpa using hacc
  | cons f rest ih =>
    intro acc hacc pr hpr
    rw [List.foldl_cons] at hpr
    cases hc : ar.content f with
    | none =>
      rw [hc] at hpr
      exact ih acc hacc pr hpr
    | some content =>
      rw [hc] at hpr
      refine ih _ ?_ pr hpr
      intro q hq
      rcases dictInsert_mem _ _ _ q hq with hq2 | hq2
      · exact hacc q hq2
      · subst hq2
        by_cases hbig : mfs < content.length
        · cases sf with
          | true =>
            refine ⟨content, hc, Or.inr (Or.inl ⟨hbig, rfl, ?_⟩)⟩
            simp [hbig]
          | false =>
            refine ⟨content, hc, Or.inr (Or.inr ⟨hbig, rfl, ?_⟩)⟩
            simp
        · refine ⟨content, hc, Or.inl ⟨by omega, ?_⟩⟩
          simp [hbig]

/-- Every entry `extract_source_code` returns satisfies `ContentOk`. -/
theorem extract_source_code_content (ar : Archive) (max_files max_file_size : Nat)
    (sf : Bool) (sz : String → String → Nat → String) :
    ∀ pr ∈ extract_source_code ar max_files max_file_size sf sz,
      ContentOk ar max_file_size sf sz pr.1 pr.2 := by
  unfold extract_source_code
  exact extract_foldl_content ar max_file_size sf sz _ [] (by simp)

theorem active_empty_succ (it : Bool) (k : Nat) (h : active it k = []) :
    active it (k + 1) = [] := by
  simp [active, h]

theorem active_true_empty : ∀ m, active true (5 + m) = [] := by
  intro m
  induction m with
  | zero => decide
  | succ m ih => exact active_empty_succ true (5 + m) ih

theorem active_false_empty : ∀ m, active false (4 + m) = [] := by
  intro m
  induction m with
  | zero => decide
  | succ m ih => exact active_empty_succ false (4 + m) ih

/-- In the default graph, every node runs exactly once, at its superstep. -/
theorem mem_active_true : ∀ k n, n ∈ active true k ↔ k = superstep_true n := by
  intro k
  rcases k with _ | _ | _ | _ | _ | m
  · decide
  · decide
  · decide
  · decide
  · decide
  · intro n
    rw [show m + 1 + 1 + 1 + 1 + 1 = 5 + m from by omega, active_true_empty m]
    have hle : superstep_true n ≤ 4 := by cases n <;> decide
    simp only [List.not_mem_nil, false_iff]
    omega

theorem concurrent_iff (n1 n2 : NodeName) :
    concurrent n1 n2 ↔ n1 ≠ n2 ∧ superstep_true n1 = superstep_true n2 := by
  constructor
  · rintro ⟨hne, k, h1, h2⟩
    rw [mem_active_true k n1] at h1
    rw [mem_active_true k n2] at h2
    exact ⟨hne, by omega⟩
  · rintro ⟨hne, heq⟩
    refine ⟨hne, superstep_true n1, ?_, ?_⟩
    · rw [mem_active_true]
    · rw [mem_active_true, heq]

theorem mem_active_false : ∀ k n,
    n ∈ active false k ↔ (k = superstep_false n ∧ n ∈ graph_nodes false) := by
  intro k
  rcases k with _ | _ | _ | _ | m
  · decide
  · decide
  · decide
  · decide
  · intro n
    rw [show m + 1 + 1 + 1 + 1 = 4 + m from by omega, active_false_empty m]
    simp only [List.not_mem_nil, false_iff, not_and]
    intro hk
    cases n <;> simp_all [superstep_false, graph_nodes] <;> omega

/-! ### Remaining helper lemmas -/

theorem enumFrom_length {α : Type} (n : Nat) (l : List α) :
    (List.enumFrom n l).length = l.length := by
  induction l generalizing n with
  | nil => rfl
  | cons a t ih => simp [List.enumFrom, ih]

theorem enumFrom_snd_mem {α : Type} (n : Nat) (l : List α) (p : Nat × α)
    (h : p ∈ List.enumFrom n l) : p.2 ∈ l := by
  induction l generalizing n with
  | nil => simp [List.enumFrom] at h
  | cons a t ih =>
    rw [List.enumFrom] at h
    rcases List.mem_cons.mp h with rfl | h2
    · exact List.mem_cons_self _ _
    · exact List.mem_cons_of_mem _ (ih (n + 1) h2)

theorem enumFrom_getElem? {α : Type} (l : List α) :
    ∀ (n i : Nat), (List.enumFrom n l)[i]? = l[i]?.map (fun a => (n + i, a)) := by
  induction l with
  | nil => intro n i; simp [List.enumFrom]
  | cons a t ih =>
    intro n i
    cases i with
    | zero => simp [List.enumFrom]
    | succ i =>
      rw [List.enumFrom]
      simp only [List.getElem?_cons_succ, ih (n + 1) i]
      have : n + 1 + i = n + (i + 1) := by omega
      rw [this]

theorem isPrefixOf_append (l t : List Char) : l.isPrefixOf (l ++ t) = true := by
  induction l with
  | nil => simp
  | cons c cs ih => simp [List.isPrefixOf, ih]

/-- The content `_summarize_code_file` returns always carries the
`[SUMMARIZED` size-disclosure tag. -/
theorem summarize_tagged (sz : String → String → Nat → String)
    (k orig : String) (mfs : Nat) :
    startsWithStr (summarize_code_file sz k orig mfs) "[SUMMARIZED" = true := by
  unfold summarize_code_file startsWithStr
  simp only [toList_append]
  rw [show ("[SUMMARIZED - Original size: ").toList =
    "[SUMMARIZED".toList ++ " - Original size: ".toList from rfl]
  simp only [List.append_assoc]
  exact isPrefixOf_append _ _

/-! ### The claims -/

/-- C1, counterexample.  The claim fails on the code: the two terraform
fan-out steps may execute concurrently (same superstep of the default
graph), yet both write `knowledge_base` (each executes
`state["knowledge_base"] = ""` under the default `include_knowledge=True`);
moreover `knowledge_base` has three writer steps in total
(`create_context` rewrites it too), not at most one. -/
theorem c1_counterexample :
    concurrent NodeName.analyze_terraform_minor NodeName.analyze_terraform_major ∧
    StateField.knowledge_base ∈ writes true NodeName.analyze_terraform_minor ∧
    StateField.knowledge_base ∈ writes true NodeName.analyze_terraform_major ∧
    (allNodes.filter
      (fun n => (writes true n).contains StateField.knowledge_base)).length = 3 := by
  exact ⟨⟨by decide, 1, by decide, by decide⟩, by decide, by decide, by decide⟩

/-- C1, amended.  Except for `knowledge_base`, every workflow state field
has at most one writer step, and the write sets of any two steps that may
execute concurrently intersect at most in `knowledge_base` (which both
fan-out steps reset to the same constant empty string). -/
theorem c1_claim :
    (∀ (ik : Bool) (n1 n2 : NodeName), concurrent n1 n2 →
      ∀ f : StateField, f ∈ writes ik n1 → f ∈ writes ik n2 →
        f = StateField.knowledge_base) ∧
    (∀ (ik : Bool) (f : StateField), f ≠ StateField.knowledge_base →
      (allNodes.filter (fun n => (writes ik n).contains f)).length ≤ 1) := by
  constructor
  · intro ik n1 n2 hc f h1 h2
    rw [concurrent_iff] at hc
    obtain ⟨hne, hss⟩ := hc
    revert hne hss h1 h2
    revert f
    revert n2
    revert n1
    revert ik
    decide
  · intro ik f
    revert f
    revert ik
    decide

/-- C1, witness: the amended statement applied at the concurrent terraform
pair on their shared field and at a per-stage analysis field. -/
theorem c1_witness :
    StateField.knowledge_base = StateField.knowledge_base ∧
    (allNodes.filter
      (fun n => (writes true n).contains StateField.terraform_analysis_minor)).length ≤ 1 := by
  constructor
  · exact c1_claim.1 true NodeName.analyze_terraform_minor NodeName.analyze_terraform_major
      ⟨by decide, 1, by decide, by decide⟩ StateField.knowledge_base (by decide) (by decide)
  · exact c1_claim.2 true StateField.terraform_analysis_minor (by decide)

/-- C2, counterexample.  `generate` renders one document per record of the
structured response with no truncation: a six-record response yields six
documents.  And a record field containing a heading line of its own makes
the document carry that heading twice, so the headings are not always
exactly the fixed eleven. -/
theorem c2_counterexample :
    (ADRGenerator.generate "proj" sixADRs).length = 6 ∧
    heading_lines headingTitleADR.doc_lines ≠ fixed_section_headings := by
  exact ⟨rfl, by decide⟩

/-- C2, amended.  The Record Generator emits exactly one output document per
record of the structured response (the ≤5 bound is requested from the model
in the prompt, not enforced in code); every emitted document is the
rendering of a response record; the eleven fixed section headings occur in
the fixed order among every rendered document's lines, and they are exactly
the document's heading lines whenever the record's field texts contain no
heading-marker lines themselves. -/
theorem c2_claim :
    ∀ (project_name : String) (adrs : List ADR),
      (ADRGenerator.generate project_name adrs).length = adrs.length ∧
      (∀ pr ∈ ADRGenerator.generate project_name adrs,
        ∃ a ∈ adrs, pr.2 = a.to_markdown) ∧
      (∀ a : ADR, fixed_section_headings.Sublist a.doc_lines) ∧
      (∀ a : ADR, (∀ s ∈ a.spliced_texts, clean_str s = true) →
        heading_lines a.doc_lines = fixed_section_headings) := by
  intro project_name adrs
  refine ⟨?_, ?_, headings_sublist_doc_lines, heading_lines_exact⟩
  · unfold ADRGenerator.generate
    rw [List.length_map, enumFrom_length]
  · intro pr hpr
    unfold ADRGenerator.generate at hpr
    obtain ⟨p, hp, hpe⟩ := List.mem_map.mp hpr
    refine ⟨p.2, enumFrom_snd_mem 1 adrs p hp, ?_⟩
    rw [← hpe]

/-- C2, witness: the amended statement applied to a one-record response with
heading-free fields. -/
theorem c2_witness :
    (ADRGenerator.generate "proj" [plainADR 1]).length = 1 ∧
    (∃ a ∈ [plainADR 1], ("proj_ADR_1.md", (plainADR 1).to_markdown).2 = a.to_markdown) ∧
    fixed_section_headings.Sublist (plainADR 1).doc_lines ∧
    heading_lines (plainADR 1).doc_lines = fixed_section_headings := by
  refine ⟨(c2_claim "proj" [plainADR 1]).1, ?_, ?_, ?_⟩
  · exact (c2_claim "proj" [plainADR 1]).2.1 ("proj_ADR_1.md", (plainADR 1).to_markdown)
      (by decide)
  · exact (c2_claim "proj" [plainADR 1]).2.2.1 (plainADR 1)
  · exact (c2_claim "proj" [plainADR 1]).2.2.2 (plainADR 1) (by decide)

/-- C3.  The graceful-degradation half of the claim holds of
`source_code_analyzer_minor_node`: with no per-stage archive it copies the
terraform analysis into `improved_analysis_minor` unchanged and returns
normally.  The run-completion half fails on the code: every run aborts in
the first node, because `context_generator_node` constructs
`ContextGenerator(llm=..., summarize_large_files=...)` while
`ContextGenerator.__init__` accepts only `llm` (and the `generate_context`
method it then calls no longer exists), so no run reaches the terminal
`generate_adrs` step. -/
theorem c3_claim :
    (∀ (o : Oracles) (s : WState), (s.source_code_zip_minor).getD "" = "" →
      (source_code_analyzer_minor_node o s).improved_analysis_minor =
        some ((s.terraform_analysis_minor).getD "")) ∧
    (∀ (o : Oracles) (it ik rc : Bool) (s : WState),
      run_workflow o it ik rc s =
        .error (.typeError "unexpected keyword argument summarize_large_files")) := by
  constructor
  · intro o s h
    simp [source_code_analyzer_minor_node, h]
  · intro o it ik rc s
    rfl

/-- C3, witness: the degradation equation at a concrete state missing the
minor archive, and the aborted run at a concrete initial state. -/
theorem c3_witness :
    (source_code_analyzer_minor_node trivialOracles
        { terraform_analysis_minor := some "tf analysis" }).improved_analysis_minor =
      some "tf analysis" ∧
    run_workflow trivialOracles true true true { project_name := "chef" } =
      .error (.typeError "unexpected keyword argument summarize_large_files") := by
  constructor
  · exact c3_claim.1 trivialOracles { terraform_analysis_minor := some "tf analysis" } rfl
  · exact c3_claim.2 trivialOracles true true true { project_name := "chef" }

/-- C4, counterexample.  With `summarize_large_files=False`, a file longer
than `max_file_size` is returned unmodified: its content neither fits the
bound once summarized nor carries any flag recording the excess. -/
theorem c4_counterexample :
    extract_source_code oversizedArchive 10 3 false (fun _ _ _ => "") =
      [("a.py", "xxxxxx")] ∧
    ¬("xxxxxx".length ≤ 3) ∧
    startsWithStr "xxxxxx" "[SUMMARIZED" = false ∧
    containsStr "xxxxxx" "[SUMMARIZED" = false := by
  exact ⟨rfl, by decide, by decide, by decide⟩

/-- C4, amended.  `extract_source_code` returns at most `max_files`
entries, and every returned content string is the decoded file content,
passed through unchanged when it fits `max_file_size`; an oversized content
is replaced by the tagged summarizer output (of unenforced length) when
summarization is on, and is included unmodified and unflagged when
summarization is off. -/
theorem c4_claim :
    ∀ (ar : Archive) (max_files max_file_size : Nat) (sf : Bool)
      (sz : String → String → Nat → String),
      (extract_source_code ar max_files max_file_size sf sz).length ≤ max_files ∧
      ∀ pr ∈ extract_source_code ar max_files max_file_size sf sz,
        ∃ orig, ar.content pr.1 = some orig ∧
          ((orig.length ≤ max_file_size ∧ pr.2 = orig) ∨
           (max_file_size < orig.length ∧ sf = true ∧
             pr.2 = summarize_code_file sz pr.1 orig max_file_size ∧
             startsWithStr pr.2 "[SUMMARIZED" = true) ∨
           (max_file_size < orig.length ∧ sf = false ∧ pr.2 = orig)) := by
  intro ar max_files max_file_size sf sz
  refine ⟨extract_source_code_length ar max_files max_file_size sf sz, ?_⟩
  intro pr hpr
  obtain ⟨orig, horig, hcase⟩ :=
    extract_source_code_content ar max_files max_file_size sf sz pr hpr
  refine ⟨orig, horig, ?_⟩
  rcases hcase with h | h | h
  · exact Or.inl h
  · refine Or.inr (Or.inl ⟨h.1, h.2.1, h.2.2, ?_⟩)
    rw [h.2.2]
    exact summarize_tagged sz pr.1 orig max_file_size
  · exact Or.inr (Or.inr h)

/-- C4, witness: the amended statement applied to a concrete archive and a
concrete returned entry. -/
theorem c4_witness :
    (extract_source_code smallArchive 10 5 true (fun _ _ _ => "")).length ≤ 10 ∧
    (∃ orig, smallArchive.content "b.py" = some orig ∧
      ((orig.length ≤ 5 ∧ "ok" = orig) ∨
       (5 < orig.length ∧ true = true ∧
         "ok" = summarize_code_file (fun _ _ _ => "") "b.py" orig 5 ∧
         startsWithStr "ok" "[SUMMARIZED" = true) ∨
       (5 < orig.length ∧ true = false ∧ "ok" = orig))) := by
  constructor
  · exact (c4_claim smallArchive 10 5 true (fun _ _ _ => "")).1
  · exact (c4_claim smallArchive 10 5 true (fun _ _ _ => "")).2
      ("b.py", "ok") (by decide)

/-- C5.  For every archive entry list, the ten category lists built by
`extract_project_structure` are pairwise disjoint, and every non-directory
entry appears (normalized) in the list of its own category: each file is
assigned to exactly one category list. -/
theorem c5_claim :
    ∀ entries : List ZipEntry,
      (∀ (c1 c2 : FileCategory) (p : String),
        p ∈ (extract_project_structure entries).category_files c1 →
        p ∈ (extract_project_structure entries).category_files c2 → c1 = c2) ∧
      (∀ e ∈ entries, e.is_dir = false →
        pathStr e.filename ∈
          (extract_project_structure entries).category_files
            (file_category e.filename)) :=
  fun entries =>
    ⟨fun c1 c2 p h1 h2 => classify_disjoint entries c1 c2 p h1 h2,
     fun e he hf => classify_covers entries e he hf⟩

/-- C5, witness: a concrete archive with a directory, a python file and a
config file. -/
theorem c5_witness :
    FileCategory.python = FileCategory.python ∧
    pathStr "src/a.py" ∈
      (extract_project_structure
        [⟨"src/", true⟩, ⟨"src/a.py", false⟩, ⟨"Dockerfile", false⟩]).category_files
        (file_category "src/a.py") := by
  constructor
  · exact (c5_claim [⟨"src/", true⟩, ⟨"src/a.py", false⟩, ⟨"Dockerfile", false⟩]).1
      FileCategory.python FileCategory.python "src/a.py" (by decide) (by decide)
  · exact (c5_claim [⟨"src/", true⟩, ⟨"src/a.py", false⟩, ⟨"Dockerfile", false⟩]).2
      ⟨"src/a.py", false⟩ (by decide) rfl

/-- C6.  In the superstep semantics of the compiled graph, the comparator
node `do_architecture_diff` runs exactly once, in the superstep after the
one in which both code-validated analysis steps run (whichever of the two
finishes first within their shared superstep), and when it starts both
`improved_analysis_minor` and `improved_analysis_major` have been written;
this holds in both graph variants of `create_workflow`. -/
theorem c6_claim :
    (∀ k, NodeName.do_architecture_diff ∈ active true k ↔ k = 3) ∧
    active true 2 =
      [NodeName.analyze_source_code_minor, NodeName.analyze_source_code_major] ∧
    (∀ (ik : Bool) (initHas : StateField → Bool),
      fields_present true ik initHas 3 StateField.improved_analysis_minor = true ∧
      fields_present true ik initHas 3 StateField.improved_analysis_major = true) ∧
    (∀ k, NodeName.do_architecture_diff ∈ active false k ↔ k = 2) ∧
    active false 1 =
      [NodeName.analyze_source_code_minor, NodeName.analyze_source_code_major] := by
  refine ⟨fun k => mem_active_true k _, by decide, ?_, ?_, by decide⟩
  · intro ik initHas
    have hmin : (active true 2).any
        (fun n => (writes ik n).contains StateField.improved_analysis_minor) = true := by
      cases ik <;> decide
    have hmaj : (active true 2).any
        (fun n => (writes ik n).contains StateField.improved_analysis_major) = true := by
      cases ik <;> decide
    constructor
    · have hstep : fields_present true ik initHas 3 StateField.improved_analysis_minor =
        (fields_present true ik initHas 2 StateField.improved_analysis_minor ||
          (active true 2).any
            (fun n => (writes ik n).contains StateField.improved_analysis_minor)) := rfl
      rw [hstep, hmin, Bool.or_true]
    · have hstep : fields_present true ik initHas 3 StateField.improved_analysis_major =
        (fields_present true ik initHas 2 StateField.improved_analysis_major ||
          (active true 2).any
            (fun n => (writes ik n).contains StateField.improved_analysis_major)) := rfl
      rw [hstep, hmaj, Bool.or_true]
  · intro k
    rw [mem_active_false k]
    constructor
    · exact fun h => h.1
    · exact fun h => ⟨h, by decide⟩

/-- C7, counterexample.  The factory lowercases the provider name before
dispatching, so the name `OPENAI` yields a model handle without raising even
though it is not a member of the closed set. -/
theorem c7_counterexample :
    create_llm "OPENAI" = .ok .chatOpenAI ∧ "OPENAI" ∉ supported_providers := by
  exact ⟨rfl, by decide⟩

/-- C7, amended.  Creation fails exactly when the lowercased provider name
is outside the closed set {openai, groq, gemini}; in that case the error is
the unsupported-provider `ValueError` (the realization of the taxonomy's
ConfigurationError), and for every name whose lowercase form is in the set
a model handle is returned without raising. -/
theorem c7_claim :
    ∀ provider : String,
      exceptIsOk (create_llm provider) = supported_providers.contains (lowerStr provider) ∧
      (∀ er, create_llm provider = .error er →
        er = .valueError ("Unsupported LLM provider: " ++ lowerStr provider)) := by
  intro provider
  by_cases h1 : lowerStr provider = "openai"
  · have e : create_llm provider = .ok .chatOpenAI := by simp [create_llm, h1]
    refine ⟨by rw [e, h1]; decide, ?_⟩
    intro er he
    rw [e] at he
    exact Except.noConfusion he
  · by_cases h2 : lowerStr provider = "groq"
    · have e : create_llm provider = .ok .chatGroq := by simp [create_llm, h1, h2]
      refine ⟨by rw [e, h2]; decide, ?_⟩
      intro er he
      rw [e] at he
      exact Except.noConfusion he
    · by_cases h3 : lowerStr provider = "gemini"
      · have e : create_llm provider = .ok .chatGoogleGenerativeAI := by
          simp [create_llm, h1, h2, h3]
        refine ⟨by rw [e, h3]; decide, ?_⟩
        intro er he
        rw [e] at he
        exact Except.noConfusion he
      · have e : create_llm provider =
            .error (.valueError ("Unsupported LLM provider: " ++ lowerStr provider)) := by
          simp [create_llm, h1, h2, h3]
        have hc : supported_providers.contains (lowerStr provider) = false := by
          simp [supported_providers, h1, h2, h3]
        refine ⟨by rw [e, hc]; rfl, ?_⟩
        intro er he
        rw [e] at he
        injection he with h
        exact h.symm

/-- C7, witness: the amended statement applied at a rejected provider name. -/
theorem c7_witness :
    exceptIsOk (create_llm "cohere") = supported_providers.contains (lowerStr "cohere") ∧
    PyErr.valueError ("Unsupported LLM provider: " ++ lowerStr "cohere") =
      .valueError ("Unsupported LLM provider: " ++ lowerStr "cohere") := by
  constructor
  · exact (c7_claim "cohere").1
  · exact (c7_claim "cohere").2
      (.valueError ("Unsupported LLM provider: " ++ lowerStr "cohere")) rfl

/-- C8.  With no configuration file at the project directory, the loader
returns the deterministic default record, a pure function of the
directory's final path component, and leaves the module-global
configuration untouched (its only side effect would have been the one file
read). -/
theorem c8_claim :
    (∀ (project_dir : String) (g : Option ProjectConfig),
      load_project_config project_dir none g =
        (default_project_config (pathName project_dir), g)) ∧
    (∀ (d1 d2 : String) (g1 g2 : Option ProjectConfig), pathName d1 = pathName d2 →
      (load_project_config d1 none g1).1 = (load_project_config d2 none g2).1) := by
  constructor
  · intro project_dir g
    rfl
  · intro d1 d2 g1 g2 h
    show default_project_config (pathName d1) = default_project_config (pathName d2)
    rw [h]

/-- C8, witness: two directories with the same final component receive the
same synthesized default. -/
theorem c8_witness :
    load_project_config "project-inputs/chef" none none =
      (default_project_config (pathName "project-inputs/chef"), none) ∧
    (load_project_config "project-inputs/chef" none none).1 =
      (load_project_config "other-dir/chef" none none).1 := by
  constructor
  · exact c8_claim.1 "project-inputs/chef" none
  · exact c8_claim.2 "project-inputs/chef" "other-dir/chef" none none (by decide)

theorem fields_present_never (it ik : Bool) (initHas : StateField → Bool)
    (f : StateField) (h0 : initHas f = false)
    (hw : ∀ n, (writes ik n).contains f = false) :
    ∀ k, fields_present it ik initHas k f = false := by
  intro k
  induction k with
  | zero => exact h0
  | succ k ih =>
    simp [fields_present, ih]
    intro x hx
    simpa using hw x

/-- C9.  The initial state of `ADRWorkflow.create` holds exactly the six
keys the source writes — never a per-stage archive path; no node of the
graph ever writes a per-stage archive path, so the per-stage paths stay
absent at every superstep of every run from that state; consequently either
code-validated analysis step, whenever it executes, reads an absent
per-stage path and takes the terraform-only fallback branch (empty
extraction data, terraform analysis passed through). -/
theorem c9_claim :
    (∀ (project_dir : String) (cfg : ProjectConfig) (ts : String) (f : StateField),
      (create_initial_state project_dir cfg ts f).isSome = initial_state_keys.contains f) ∧
    (∀ (ik : Bool) (n : NodeName),
      StateField.source_code_zip_minor ∉ writes ik n ∧
      StateField.source_code_zip_major ∉ writes ik n) ∧
    (∀ (it ik : Bool) (project_dir : String) (cfg : ProjectConfig) (ts : String) (k : Nat),
      fields_present it ik (fun f => (create_initial_state project_dir cfg ts f).isSome) k
        StateField.source_code_zip_minor = false ∧
      fields_present it ik (fun f => (create_initial_state project_dir cfg ts f).isSome) k
        StateField.source_code_zip_major = false) ∧
    (∀ (o : Oracles) (s : WState), s.source_code_zip_minor = none →
      (source_code_analyzer_minor_node o s).improved_analysis_minor =
        some ((s.terraform_analysis_minor).getD "") ∧
      (source_code_analyzer_minor_node o s).source_code_dict_minor = some []) ∧
    (∀ (o : Oracles) (s : WState), s.source_code_zip_major = none →
      (source_code_analyzer_major_node o s).improved_analysis_major =
        some ((s.terraform_analysis_major).getD "") ∧
      (source_code_analyzer_major_node o s).source_code_dict_major = some []) := by
  refine ⟨?_, ?_, ?_, ?_, ?_⟩
  · intro project_dir cfg ts f
    cases f <;> rfl
  · intro ik n
    cases ik <;> revert n <;> decide
  · intro it ik project_dir cfg ts k
    have hwmin : ∀ n, (writes ik n).contains StateField.source_code_zip_minor = false := by
      cases ik <;> decide
    have hwmaj : ∀ n, (writes ik n).contains StateField.source_code_zip_major = false := by
      cases ik <;> decide
    exact ⟨fields_present_never it ik _ _ rfl hwmin k,
           fields_present_never it ik _ _ rfl hwmaj k⟩
  · intro o s h
    constructor <;> simp [source_code_analyzer_minor_node, h]
  · intro o s h
    constructor <;> simp [source_code_analyzer_major_node, h]

/-- C9, witness: the key set at a concrete configuration and the fallback
branch of both code-validated steps at a concrete state. -/
theorem c9_witness :
    (create_initial_state "project-inputs/chef" (default_project_config "chef") "2026-02-14"
        StateField.source_code_zip_minor).isSome =
      initial_state_keys.contains StateField.source_code_zip_minor ∧
    fields_present true true
      (fun f => (create_initial_state "project-inputs/chef" (default_project_config "chef")
        "2026-02-14" f).isSome) 3 StateField.source_code_zip_minor = false ∧
    (source_code_analyzer_minor_node trivialOracles
        { terraform_analysis_minor := some "tfm" }).improved_analysis_minor = some "tfm" ∧
    (source_code_analyzer_major_node trivialOracles
        { terraform_analysis_major := some "tfM" }).improved_analysis_major = some "tfM" := by
  refine ⟨?_, ?_, ?_, ?_⟩
  · exact c9_claim.1 "project-inputs/chef" (default_project_config "chef") "2026-02-14"
      StateField.source_code_zip_minor
  · exact (c9_claim.2.2.1 true true "project-inputs/chef" (default_project_config "chef")
      "2026-02-14" 3).1
  · exact (c9_claim.2.2.2.1 trivialOracles
      { terraform_analysis_minor := some "tfm" } rfl).1
  · exact (c9_claim.2.2.2.2 trivialOracles
      { terraform_analysis_major := some "tfM" } rfl).1

/-- C10, counterexample.  The status field of the Pydantic model is an
unvalidated string: a structured response whose status is `Draft` — not one
of the five enumeration values — is rendered and emitted unchanged. -/
theorem c10_counterexample :
    ADRGenerator.generate "proj" [badStatusADR] =
      [("proj_ADR_1.md", badStatusADR.to_markdown)] ∧
    allowed_statuses.contains badStatusADR.status = false ∧
    badStatusADR.to_markdown_lines[6]? = some "Draft" := by
  exact ⟨rfl, by decide, by decide⟩

/-- C10, amended.  The five status values are requested from the model (in
the field description and the prompt) but never validated: the Record
Generator renders each record's status string verbatim under the `## Status`
heading and emits the record at its position in the response, for any status
string whatsoever. -/
theorem c10_claim :
    ∀ (a : ADR) (project_name : String) (adrs : List ADR) (i : Nat),
      a.to_markdown_lines[5]? = some "## Status" ∧
      a.to_markdown_lines[6]? = some a.status ∧
      (adrs[i]? = some a →
        (ADRGenerator.generate project_name adrs)[i]? =
          some (project_name ++ "_ADR_" ++ toString (i + 1) ++ ".md", a.to_markdown)) := by
  intro a project_name adrs i
  refine ⟨?_, ?_, ?_⟩
  · simp [ADR.to_markdown_lines]
  · simp [ADR.to_markdown_lines]
  · intro hi
    unfold ADRGenerator.generate
    rw [List.getElem?_map, enumFrom_getElem? adrs 1 i, hi]
    simp [Nat.add_comm 1 i]

/-- C10, witness: the verbatim rendering and positional emission applied to
the out-of-enumeration record. -/
theorem c10_witness :
    badStatusADR.to_markdown_lines[5]? = some "## Status" ∧
    badStatusADR.to_markdown_lines[6]? = some badStatusADR.status ∧
    (ADRGenerator.generate "proj" [badStatusADR])[0]? =
      some ("proj_ADR_" ++ toString (0 + 1) ++ ".md", badStatusADR.to_markdown) := by
  refine ⟨(c10_claim badStatusADR "proj" [badStatusADR] 0).1,
    (c10_claim badStatusADR "proj" [badStatusADR] 0).2.1, ?_⟩
  exact (c10_claim badStatusADR "proj" [badStatusADR] 0).2.2 rfl

end AdrSynth
